import Mathlib

/-!
# Verification of the workflow execution engine (backend/executor.js, server.js)

A shallow embedding of the repository's workflow engine: JS values are modelled
by an inductive `Value` type (numbers as rationals), the path resolver, template
interpolator, row normalizer, transform library, HTTP retry loop, fan-out merge,
execution engine loop and the server's /run handler are translated from the
source.  The Pearson correlation transform, whose arithmetic is real-valued
(it takes a square root), is modelled separately over `ℝ`.
-/

namespace Exec

/-- JS values as they flow through the engine.  `null` also stands for
`undefined` (the engine only ever distinguishes them through `== null`,
which identifies the two). Numbers are modelled as rationals. -/
inductive Value where
  | null : Value
  | num (q : ℚ) : Value
  | str (s : String) : Value
  | bool (b : Bool) : Value
  | arr (elems : List Value) : Value
  | obj (fields : List (String × Value)) : Value

/-- JS truthiness: `null`/`undefined`, `0`, `""` and `false` are falsy;
arrays and objects are always truthy. -/
def truthy : Value → Bool
  | .null => false
  | .num q => q != 0
  | .str s => s != ""
  | .bool b => b
  | .arr _ => true
  | .obj _ => true

/-- Rendering of a number by JS string conversion (integers print without
a fractional part). -/
def numToString (q : ℚ) : String :=
  if q.den == 1 then toString q.num else toString q.num ++ "/" ++ toString q.den

/-- JS `String(v)` as used by template-literal interpolation. -/
def jsToString : Value → String
  | .null => "null"
  | .num q => numToString q
  | .str s => s
  | .bool b => if b then "true" else "false"
  | .arr _ => ""
  | .obj _ => "[object Object]"

/-- Character-level split on a separator, agreeing with `String.split` for a
single-character separator (structurally recursive so that concrete path
expressions reduce definitionally). -/
def splitParts (sep : Char) : List Char → List (List Char)
  | [] => [[]]
  | c :: rest =>
    let ps := splitParts sep rest
    if c = sep then [] :: ps
    else
      match ps with
      | p :: tailParts => (c :: p) :: tailParts
      | [] => [[c]]

/-- `s.split(sep)` for a one-character separator. -/
def splitOnChar (sep : Char) (s : String) : List String :=
  (splitParts sep s.data).map String.mk

/-- Structural `startsWith` on the underlying character lists. -/
def listStartsWith : List Char → List Char → Bool
  | _, [] => true
  | [], _ :: _ => false
  | c :: cs, d :: ds => c == d && listStartsWith cs ds

/-- `s.startsWith(pat)`. -/
def strStartsWith (s pat : String) : Bool :=
  listStartsWith s.data pat.data

/-- One step of the dotted-path walk: `cur[p]`.  Objects look up the field,
arrays accept a numeric index, and indexing any other value yields
`undefined` (`none`). -/
def getField : Value → String → Option Value
  | .obj fields, k => fields.lookup k
  | .arr elems, k => k.toNat?.bind fun i => elems.get? i
  | _, _ => none

/-- The dotted-path walk of `resolveExpr`/`resolvePathLike`: starting from the
scope, follow each path part; a `null`/`undefined` intermediate value
short-circuits to `undefined`. -/
def walkPath : Value → List String → Option Value
  | cur, [] => some cur
  | .null, _ :: _ => none
  | cur, p :: ps =>
    match getField cur p with
    | some v => walkPath v ps
    | none => none

/-- `resolveExpr(scope, expr)`: split the expression on `.` and walk. -/
def resolveExpr (scope : Value) (expr : String) : Option Value :=
  walkPath scope (splitOnChar '.' expr)

/-- The JSONPath branch of `resolvePathLike` calls the external
`jsonpath-plus` library, which is outside this repository; it is modelled
as resolution failure (which the code itself produces for a malformed
path).  Every claim exercises only dotted paths. -/
def jsonPathQuery (_scope : Value) (_expr : String) : Option Value := none

/-- `resolvePathLike(scope, expr)`: JSONPath expressions (starting with
`$.` or `$[`) go to the external JSONPath engine, everything else is a
dotted field path. -/
def resolvePathLike (scope : Value) (expr : String) : Option Value :=
  if strStartsWith expr "$." || strStartsWith expr "$[" then jsonPathQuery scope expr
  else walkPath scope (splitOnChar '.' expr)

/-- A parsed `{{ ... }}` placeholder: the regex either recognises
`join_coords(latPath, lonPath)` or leaves a plain path expression. -/
inductive Call where
  | joinCoords (latPath lonPath : String) : Call
  | pathExpr (expr : String) : Call

/-- A template, pre-split by the placeholder regex into literal text and
placeholders (`template.replace(/\x7b\x7b([^}]+)\x7d\x7d/g, ...)`). -/
inductive Tpl where
  | lit (s : String) : Tpl
  | ph (call : Call) : Tpl

/-- The `scope.context?.origin` fallback of the origin computation: split the
`"lat,lon"` string on the comma and reassemble as `"lon,lat"`. -/
def originCoordsFallback (scope : Value) : String :=
  match walkPath scope ["context", "origin"] with
  | some ctxOrigin =>
    if truthy ctxOrigin then
      match splitOnChar ',' (jsToString ctxOrigin) with
      | lat :: lon :: _ =>
        if lat != "" && lon != "" then lon.trim ++ "," ++ lat.trim else ""
      | _ => ""
    else ""
  | none => ""

/-- The origin string used by `join_coords`: `"lon,lat"` from `scope._origin`
when that object is present (truthy) with non-null `lon`/`lat`, else parsed
from the `"lat,lon"` string at `scope.context.origin`, else empty. -/
def originCoords (scope : Value) : String :=
  match getField scope "_origin" with
  | some o =>
    if truthy o then
      match getField o "lon", getField o "lat" with
      | some .null, _ => originCoordsFallback scope
      | _, some .null => originCoordsFallback scope
      | some lon, some lat => jsToString lon ++ "," ++ jsToString lat
      | _, _ => originCoordsFallback scope
    else originCoordsFallback scope
  | none => originCoordsFallback scope

/-- The `join_coords(latPath, lonPath)` placeholder: resolve the two arrays;
if both are arrays, emit `"lon,lat"` pairs (origin first when present,
null entries skipped) joined by `;`, else the empty string. -/
def evalJoinCoords (scope : Value) (latPath lonPath : String) : String :=
  match resolvePathLike scope latPath, resolvePathLike scope lonPath with
  | some (.arr lats), some (.arr lons) =>
    let origin := originCoords scope
    let headPairs := if origin != "" then [origin] else []
    let zipped := (List.range (min lats.length lons.length)).filterMap fun i =>
      match lons.getD i .null, lats.getD i .null with
      | .null, _ => none
      | _, .null => none
      | lon, lat => some (jsToString lon ++ "," ++ jsToString lat)
    String.intercalate ";" (headPairs ++ zipped)
  | _, _ => ""

/-- Evaluate one placeholder: `join_coords` is handled specially, any other
expression goes to the path resolver, with `null`/`undefined` rendered as
the empty string. -/
def evalCall (scope : Value) : Call → String
  | .joinCoords latPath lonPath => evalJoinCoords scope latPath lonPath
  | .pathExpr e =>
    match resolvePathLike scope e with
    | none => ""
    | some .null => ""
    | some v => jsToString v

/-- `interpolate(template, scope)`: literal segments pass through, each
placeholder is independently evaluated. -/
def interpolate (template : List Tpl) (scope : Value) : String :=
  String.join (template.map fun part =>
    match part with
    | .lit s => s
    | .ph c => evalCall scope c)

/-! ## Row normalizer and transform library -/

/-- The element list of an array value (empty for anything else). -/
def colArr : Value → List Value
  | .arr l => l
  | _ => []

/-- `asRows(input)`: a list passes through; a columnar object (every value an
array) is transposed into one row object per index, truncating to the
shortest column (when all columns have equal length the shortest-column
length is that common length, so both source branches are this one
formula); anything else normalizes to the empty list. -/
def asRows : Value → List Value
  | .arr elems => elems
  | .obj fields =>
    if fields.all (fun kv => match kv.2 with | .arr _ => true | _ => false) then
      match fields with
      | [] => []
      | kv0 :: rest =>
        let len := rest.foldl (fun m kv => min m (colArr kv.2).length) (colArr kv0.2).length
        (List.range len).map fun i =>
          Value.obj (fields.map fun kv => (kv.1, (colArr kv.2).getD i .null))
    else []
  | _ => []

/-- `row?.[k]` : field access on a row, `undefined` for non-objects and
missing fields (modelled as `.null`). -/
def rowGet (v : Value) (k : String) : Value :=
  match v with
  | .obj fields => (fields.lookup k).getD .null
  | _ => .null

/-- `Number(row?.[k]) || 0`: the numeric value of a field, with missing or
non-numeric values coerced to `0` (`NaN || 0` and `0 || 0` are both `0`). -/
def numOr0 (v : Value) (k : String) : ℚ :=
  match v with
  | .obj fields =>
    match fields.lookup k with
    | some (.num q) => q
    | _ => 0
  | _ => 0

/-- The field list of a row (empty for a non-object, as JS spread of a
primitive contributes no fields). -/
def rowFields : Value → List (String × Value)
  | .obj fields => fields
  | _ => []

/-- JS object spread `{ ...fs, ...extra }`: keys of `fs` keep their position
(values overridden by `extra` where present), then the new keys of `extra`. -/
def objSpread (fs extra : List (String × Value)) : List (String × Value) :=
  (fs.map fun kv =>
    match extra.lookup kv.1 with
    | some v => (kv.1, v)
    | none => kv) ++ extra.filter fun kv => (fs.lookup kv.1).isNone

/-- `t_join_on_index(left, rightArrays, rightKeys)`: normalize `left` to rows,
replace each non-array right input by `[]`, and zip each right array's i-th
element onto the i-th left row under the corresponding key (skipped when the
key is missing or empty, i.e. falsy). -/
def t_join_on_index (left : Value) (rightArrays : List (Option Value))
    (rightKeys : List String) : List Value :=
  let leftRows := asRows left
  let validRightArrays := rightArrays.map fun a =>
    match a with
    | some (.arr l) => l
    | _ => []
  leftRows.enum.map fun ir =>
    let extra := validRightArrays.enum.filterMap fun ja =>
      match rightKeys.get? ja.1 with
      | some k => if k != "" then some (k, ja.2.getD ir.1 .null) else none
      | none => none
    Value.obj (objSpread (rowFields ir.2) extra)

/-- The configurable field-name map of `compute_osm_quality`:
`f.name ?? "name"`. -/
def fieldName (fmap : List (String × String)) (k : String) : String :=
  (fmap.lookup k).getD k

/-- `yes(v)`: `String(v || "").toLowerCase() === "yes"`. -/
def yesFlag (v : Value) : Bool :=
  (jsToString (if truthy v then v else .str "")).toLower == "yes"

/-- `t_compute_osm_quality(arr, fields)`: heuristic quality starting at 3.5,
+0.6 for a truthy cuisine tag, +0.4 for truthy opening hours, +0.2 each for
"yes" outdoor seating and wheelchair flags, clamped at 5; adds a `quality`
field to each row. -/
def t_compute_osm_quality (input : Value) (fmap : List (String × String)) :
    List Value :=
  (asRows input).map fun row =>
    let q1 : ℚ := if truthy (rowGet row (fieldName fmap "cuisine")) then 3.5 + 0.6 else 3.5
    let q2 : ℚ := if truthy (rowGet row (fieldName fmap "opening_hours")) then q1 + 0.4 else q1
    let q3 : ℚ := if yesFlag (rowGet row (fieldName fmap "outdoor_seating")) then q2 + 0.2 else q2
    let q4 : ℚ := if yesFlag (rowGet row (fieldName fmap "wheelchair")) then q3 + 0.2 else q3
    let q : ℚ := if q4 > 5 then 5 else q4
    Value.obj (objSpread (rowFields row) [("quality", .num q)])

/-- `t_compute_score(arr, {ratingKey, etaKey, precipKey})`:
`score = rating - eta/600 - min(1.0, precip * 0.1)`. -/
def t_compute_score (input : Value) (ratingKey etaKey precipKey : String) :
    List Value :=
  (asRows input).map fun row =>
    let scaledEta : ℚ := numOr0 row etaKey / 600
    let rain : ℚ := min 1 (numOr0 row precipKey * 0.1)
    let rating : ℚ := numOr0 row ratingKey
    Value.obj (objSpread (rowFields row) [("score", .num (rating - scaledEta - rain))])

/-- The sort key realizing the `t_top_n` comparator
`desc ? valB - valA : valA - valB`: an ascending stable sort on this key is
exactly a stable sort by that comparator. -/
def sortKeyQ (desc : Bool) (k : String) (v : Value) : ℚ :=
  if desc then -(numOr0 v k) else numOr0 v k

/-- The sort relation of `t_top_n`. -/
def topRel (desc : Bool) (k : String) (a b : Value) : Prop :=
  sortKeyQ desc k a ≤ sortKeyQ desc k b

instance (desc : Bool) (k : String) : DecidableRel (topRel desc k) := fun a b =>
  inferInstanceAs (Decidable (sortKeyQ desc k a ≤ sortKeyQ desc k b))

/-- `t_top_n(arr, {n, by, desc})`: stable sort of the rows by the named
numeric field (ES2019 `Array.prototype.sort` is stable; modelled by
insertion sort), then the first `n`. -/
def t_top_n (input : Value) (n : ℕ) (byField : String) (desc : Bool) :
    List Value :=
  (List.insertionSort (topRel desc byField) (asRows input)).take n

/-! ## Pearson correlation (`t_correlation`)

The correlation transform computes with floating-point numbers and a square
root, so it is modelled over `ℝ`.  Its inputs are the element-wise results
of JS `Number` conversion: `some x` for a numeric conversion, `none` for
`NaN` (the `xs.map(Number).filter(n => !isNaN(n))` filter drops exactly the
`none` entries). -/

/-- `xs.map(Number).filter(n => !isNaN(n))`: the usable numeric entries. -/
def usableR (xs : List (Option ℝ)) : List ℝ := xs.filterMap id

/-- `n = Math.min(X.length, Y.length)` after filtering. -/
def corrN (xs ys : List (Option ℝ)) : ℕ :=
  min (usableR xs).length (usableR ys).length

/-- `mean(a) = a.reduce((s,x) => s+x, 0) / n` applied to a slice of length
`n`. -/
noncomputable def meanSlice (l : List ℝ) (n : ℕ) : ℝ := (l.take n).sum / n

/-- The covariance accumulator `num`. -/
noncomputable def corrNum (xs ys : List (Option ℝ)) : ℝ :=
  ∑ i ∈ Finset.range (corrN xs ys),
    ((usableR xs).getD i 0 - meanSlice (usableR xs) (corrN xs ys)) *
      ((usableR ys).getD i 0 - meanSlice (usableR ys) (corrN xs ys))

/-- The variance accumulator `dx`. -/
noncomputable def corrDx (xs ys : List (Option ℝ)) : ℝ :=
  ∑ i ∈ Finset.range (corrN xs ys),
    ((usableR xs).getD i 0 - meanSlice (usableR xs) (corrN xs ys)) ^ 2

/-- The variance accumulator `dy`. -/
noncomputable def corrDy (xs ys : List (Option ℝ)) : ℝ :=
  ∑ i ∈ Finset.range (corrN xs ys),
    ((usableR ys).getD i 0 - meanSlice (usableR ys) (corrN xs ys)) ^ 2

/-- `den = Math.sqrt(dx * dy)`. -/
noncomputable def corrDen (xs ys : List (Option ℝ)) : ℝ :=
  Real.sqrt (corrDx xs ys * corrDy xs ys)

/-- `t_correlation(xs, ys)`: 0 for fewer than two usable pairs, else the
Pearson quotient guarded by the `den > 1e-6` epsilon test. -/
noncomputable def t_correlation (xs ys : List (Option ℝ)) : ℝ :=
  if corrN xs ys < 2 then 0
  else if corrDen xs ys > 1 / 1000000 then corrNum xs ys / corrDen xs ys
  else 0

/-- Modelled from the spec: the intended element-wise pairing contract for
`correlation` — indices where *either* series is non-numeric are dropped
with both series kept aligned, and the Pearson coefficient is computed over
the surviving pairs (same `< 2` and epsilon guards). -/
noncomputable def correlationSpec (xs ys : List (Option ℝ)) : ℝ :=
  let pairs := (xs.zip ys).filterMap fun ab =>
    match ab with
    | (some a, some b) => some (a, b)
    | _ => none
  t_correlation (pairs.map fun p => some p.1) (pairs.map fun p => some p.2)

/-! ## HTTP node runner: retry with exponential backoff (`runHttpNode`)

Live mode only (the claims address live mode).  One attempt's outcome —
template compilation, the axios call, status validation and response
mapping — is abstracted as `outcome k` for attempt number `k` (1-based):
`.ok data` for a 2xx response with its mapped output, `.error msg` for a
non-2xx/timeout/network failure with the error's message. -/

/-- Result of the retry loop: final result, number of attempts made, and the
backoff delays slept between attempts (in milliseconds, in order). -/
structure HttpRunResult where
  result : Except String Value
  attempts : ℕ
  delays : List ℚ

/-- The error thrown when retries are exhausted and a `fallback` is declared
(the fallback itself is never executed). -/
def fmtExhausted (nodeId : String) (attempts : ℕ) (msg : String) : String :=
  "Node " ++ nodeId ++ " failed after " ++ toString attempts ++ " attempts: " ++ msg

/-- One pass of the `while (attempts <= maxRetries)` loop, at attempt number
`attempt` with `remaining` retries left: success returns immediately; a
failure with no retries left throws (formatted when a fallback is declared,
the raw error otherwise); a failure with retries left sleeps
`backoff * 2^(attempt-1)` and retries. -/
def runAttemptsFrom (nodeId : String) (hasFallback : Bool) (backoff : ℚ)
    (outcome : ℕ → Except String Value) (attempt remaining : ℕ) : HttpRunResult :=
  match outcome attempt with
  | .ok v => { result := .ok v, attempts := attempt, delays := [] }
  | .error msg =>
    match remaining with
    | 0 =>
      { result := .error (if hasFallback then fmtExhausted nodeId attempt msg else msg)
        attempts := attempt
        delays := [] }
    | r + 1 =>
      let rest := runAttemptsFrom nodeId hasFallback backoff outcome (attempt + 1) r
      { rest with delays := backoff * 2 ^ (attempt - 1) :: rest.delays }

/-- `runHttpNode` in live mode: up to `retryTimes` additional attempts after
the first (`maxRetries = node.retry?.times ?? 0`,
`backoff = node.retry?.backoff_ms ?? 100`). -/
def runHttpNode (nodeId : String) (hasFallback : Bool) (retryTimes : ℕ)
    (backoff : ℚ) (outcome : ℕ → Except String Value) : HttpRunResult :=
  runAttemptsFrom nodeId hasFallback backoff outcome 1 retryTimes

/-! ## Fan-out dispatch and merge (the `node.fanout?.over` block of
`executePipeline`) -/

/-- `Math.min(node.fanout.max || baseArr.length, baseArr.length)`: an absent
— or zero, hence falsy — `max` falls back to the collection length. -/
def fanoutCap (fmax : Option ℕ) (len : ℕ) : ℕ :=
  min (match fmax with
    | none => len
    | some m => if m = 0 then len else m) len

/-- Per-item call result as produced by `runHttpNode` for item `j`:
`.ok (columns, attempts)` when fulfilled, `.error msg` when rejected. -/
abbrev FanCall := Except (String × ℕ) (List (String × Value) × ℕ)

/-- Key dedup preserving first-encounter order (JS object key insertion
order during the merge loop). -/
def firstDedup : List String → List String
  | [] => []
  | k :: ks => k :: firstDedup (ks.filter fun x => x != k)
termination_by l => l.length
decreasing_by
  simp only [List.length_cons]
  exact Nat.lt_succ_of_le (List.length_filter_le _ _)

/-- `Array.isArray(val) ? val[0] : val` — the merge stores an array value's
first element (`undefined`, i.e. `.null`, when empty). -/
def mergeVal : Value → Value
  | .arr l => l.headD .null
  | v => v

/-- One merged output column: initialized to `cap` nulls, with each
fulfilled position overwritten by that call's value for the key. -/
def fanColumn (calls : ℕ → FanCall) (cap : ℕ) (k : String) : List Value :=
  (List.range cap).map fun j =>
    match calls j with
    | .ok d =>
      match d.1.lookup k with
      | some v => mergeVal v
      | none => .null
    | .error _ => .null

/-- The columns created during the merge loop: a fulfilled call contributes
its data keys, a rejected call the node's `map` keys, in first-encounter
order. -/
def fanKeys (mapKeys : List String) (calls : ℕ → FanCall) (cap : ℕ) : List String :=
  firstDedup ((List.range cap).flatMap fun j =>
    match calls j with
    | .ok d => d.1.map Prod.fst
    | .error _ => mapKeys)

/-- Result of the fan-out block: number of calls dispatched, merged columnar
output, scoped per-item errors pushed to the run's error list, and the
reported attempt count. -/
structure FanoutResult where
  dispatched : ℕ
  merged : List (String × List Value)
  errors : List (String × String)
  maxAttempts : ℕ

/-- The fan-out block of `executePipeline`: dispatch `cap` calls, settle all
(one item's failure never aborts the others — each `calls j` settles
independently), merge column-wise, record one scoped error per rejected
index, and report the running maximum of attempt counts (a rejected call
counts as `(node.retry?.times ?? 0) + 1`). -/
def runFanout (nodeId : String) (mapKeys : List String) (retryTimes : ℕ)
    (fmax : Option ℕ) (baseLen : ℕ) (calls : ℕ → FanCall) : FanoutResult :=
  let cap := fanoutCap fmax baseLen
  { dispatched := cap
    merged := (fanKeys mapKeys calls cap).map fun k => (k, fanColumn calls cap k)
    errors := (List.range cap).filterMap fun j =>
      match calls j with
      | .error e => some (nodeId ++ "[" ++ toString j ++ "]", e.1)
      | .ok _ => none
    maxAttempts := (List.range cap).foldl (fun m j =>
      match calls j with
      | .ok d => max m d.2
      | .error _ => max m (retryTimes + 1)) 1 }

/-! ## Transform runner (`runTransformNode`) -/

/-- Node type tag (`node.type`): `http`, `transform`, or anything else
(the engine's final `else` branch stores `null`). -/
inductive NType where
  | http
  | transform
  | other
deriving DecidableEq

/-- `node.args` for transform nodes.  `fromPath` models the source's `from`
field, `byField` its `by`, `descFlag` its `desc` (Lean keywords). -/
structure TArgs where
  left : Option String := none
  rightArrays : List String := []
  rightKeys : List String := []
  fromPath : Option String := none
  fieldsMap : List (String × String) := []
  ratingKey : Option String := none
  etaKey : Option String := none
  precipKey : Option String := none
  n : Option ℕ := none
  byField : Option String := none
  descFlag : Option Bool := none
  xFrom : Option String := none
  yFrom : Option String := none

/-- A node of the specification (fields relevant to execution). -/
structure NodeCfg where
  id : String
  ntype : NType
  fn : String := ""
  args : TArgs := {}
  hasFallback : Bool := false
  retryTimes : ℕ := 0
  backoff : ℚ := 100

/-- An edge; `src`/`dst` model the source's `from`/`to`. -/
structure EdgeCfg where
  src : String
  dst : String

/-- The transform names known to the dispatch. -/
def knownTransforms : List String :=
  ["join_on_index", "compute_osm_quality", "compute_score", "top_n", "correlation"]

/-- The `{ outputs }` scope a transform resolves its arguments against. -/
def outputsScope (outputs : List (String × Value)) : Value :=
  .obj [("outputs", .obj outputs)]

/-- `resolvePathLike({outputs}, p)` for a possibly absent argument
(`resolvePathLike` passes a non-string through, so an absent argument
resolves to `undefined`). -/
def resolveArg (outputs : List (String × Value)) (p : Option String) : Option Value :=
  p.bind fun e => resolvePathLike (outputsScope outputs) e

/-- JS `x ?? d`: `null`/`undefined` falls back to the default. -/
def nullishOr (v : Option Value) (d : Value) : Value :=
  match v with
  | some .null => d
  | some v' => v'
  | none => d

/-- JS `s || d` for an optional string argument: absent or empty (falsy)
falls back to the default. -/
def strOr (o : Option String) (d : String) : String :=
  match o with
  | some s => if s == "" then d else s
  | none => d

/-- `runTransformNode(node, outputs)`: string-keyed dispatch over the
transform library; an unknown function name logs a warning and returns the
resolved `args.from` input (or `null`) — it does not throw.  The
`correlation` branch computes with floating-point square roots, which the
rational `Value` model cannot represent; its numeric result is supplied by
the `corrFn` parameter (the real-valued computation is verified separately
as `t_correlation` over `ℝ`). -/
def runTransformNode (corrFn : Option Value → Option Value → Value)
    (node : NodeCfg) (outputs : List (String × Value)) : Value :=
  let fn := node.fn
  if fn = "join_on_index" then
    let left := nullishOr (resolveArg outputs node.args.left) (.arr [])
    let rightArrays := node.args.rightArrays.map fun p =>
      resolvePathLike (outputsScope outputs) p
    .arr (t_join_on_index left rightArrays node.args.rightKeys)
  else if fn = "compute_osm_quality" then
    let arr := nullishOr (resolveArg outputs (some (strOr node.args.fromPath "outputs.t1_join"))) (.arr [])
    .arr (t_compute_osm_quality arr node.args.fieldsMap)
  else if fn = "compute_score" then
    let arr := nullishOr (resolveArg outputs (some (strOr node.args.fromPath "outputs.t_osm_quality"))) (.arr [])
    .arr (t_compute_score arr (strOr node.args.ratingKey "quality")
      (strOr node.args.etaKey "eta_seconds") (strOr node.args.precipKey "precip"))
  else if fn = "top_n" then
    let arr := nullishOr (resolveArg outputs (some (strOr node.args.fromPath "outputs.t2_score"))) (.arr [])
    .arr (t_top_n arr (node.args.n.getD 5) (strOr node.args.byField "score")
      (node.args.descFlag.getD true))
  else if fn = "correlation" then
    corrFn (resolveArg outputs node.args.xFrom) (resolveArg outputs node.args.yFrom)
  else
    nullishOr (resolveArg outputs node.args.fromPath) .null

/-! ## Execution engine (`executePipeline`) -/

/-- Per-node (and per-edge) lifecycle state. -/
inductive Status where
  | pending
  | running
  | completed
  | failed
deriving DecidableEq

/-- Published lifecycle events. -/
inductive Event where
  | nodeStart (nodeId : String)
  | nodeComplete (nodeId : String)
  | nodeFail (nodeId : String) (msg : String)
deriving DecidableEq

/-- A `runLog` entry (`status`, `attempts`, optional `error`; the source
hard-codes `attempts: 1` on the failure path). -/
structure LogEntry where
  nodeId : String
  ok : Bool
  attempts : ℕ
  error : Option String := none
deriving DecidableEq

/-- Mutable run state: the output store, node and edge statuses, the event
stream, the ordered record of node-status assignments (for the ordering
claims), the error list and the run log. -/
structure RunState where
  outputs : List (String × Value)
  statuses : List Status
  edgeStatuses : List Status
  events : List Event
  statusLog : List (ℕ × Status)
  errors : List (String × String)
  runLog : List LogEntry

/-- `edges.forEach(edge => { if (pred edge) edge.status = newSt })`. -/
def updEdges (edges : List EdgeCfg) (sts : List Status) (pred : EdgeCfg → Bool)
    (newSt : Status) : List Status :=
  (edges.zip sts).map fun es => if pred es.1 then newSt else es.2

/-- The awaited result of running one node's body: `.ok (value, attempts,
scopedErrors)` on success (a fan-out node's scoped per-item errors are
pushed into the run's error list during the merge, before the node
completes), `.error msg` when the body throws.  HTTP results come from the
environment `httpRes` (indexed by node position); transforms and unknown
node types never throw in this model. -/
def nodeOutcome (corrFn : Option Value → Option Value → Value)
    (httpRes : ℕ → Except String (Value × ℕ × List (String × String)))
    (i : ℕ) (node : NodeCfg) (outputs : List (String × Value)) :
    Except String (Value × ℕ × List (String × String)) :=
  match node.ntype with
  | .http => httpRes i
  | .transform => .ok (runTransformNode corrFn node outputs, 1, [])
  | .other => .ok (.null, 1, [])

/-- The body of the `for` loop of `executePipeline` for node `i`: mark
running (with its incoming edges) and emit `node_start`; then on success
store the output, mark completed, log and emit `node_complete`; on failure
mark failed, record the error, log (with the hard-coded `attempts: 1`) and
emit `node_fail` — and in either case fall through to the next node. -/
def stepNode (corrFn : Option Value → Option Value → Value)
    (httpRes : ℕ → Except String (Value × ℕ × List (String × String)))
    (edges : List EdgeCfg) (i : ℕ) (node : NodeCfg) (s : RunState) : RunState :=
  let s1 : RunState :=
    { s with
      statuses := s.statuses.set i .running
      edgeStatuses := updEdges edges s.edgeStatuses (fun e => e.dst == node.id) .running
      statusLog := s.statusLog ++ [(i, .running)]
      events := s.events ++ [.nodeStart node.id] }
  match nodeOutcome corrFn httpRes i node s.outputs with
  | .ok va =>
    { s1 with
      outputs := s1.outputs ++ [(node.id, va.1)]
      errors := s1.errors ++ va.2.2
      statuses := s1.statuses.set i .completed
      edgeStatuses := updEdges edges s1.edgeStatuses (fun e => e.src == node.id) .completed
      statusLog := s1.statusLog ++ [(i, .completed)]
      runLog := s1.runLog ++ [{ nodeId := node.id, ok := true, attempts := va.2.1 }]
      events := s1.events ++ [.nodeComplete node.id] }
  | .error msg =>
    { s1 with
      statuses := s1.statuses.set i .failed
      edgeStatuses := updEdges edges s1.edgeStatuses (fun e => e.src == node.id) .failed
      statusLog := s1.statusLog ++ [(i, .failed)]
      errors := s1.errors ++ [(node.id, msg)]
      runLog := s1.runLog ++ [{ nodeId := node.id, ok := false, attempts := 1, error := some msg }]
      events := s1.events ++ [.nodeFail node.id msg] }

/-- The engine loop over the indexed node list. -/
def runLoop (corrFn : Option Value → Option Value → Value)
    (httpRes : ℕ → Except String (Value × ℕ × List (String × String)))
    (edges : List EdgeCfg) : List (ℕ × NodeCfg) → RunState → RunState
  | [], s => s
  | inode :: rest, s =>
    runLoop corrFn httpRes edges rest (stepNode corrFn httpRes edges inode.1 inode.2 s)

/-- The fresh run state: outputs cleared, every node and edge `pending`. -/
def initState (nodes : List NodeCfg) (edges : List EdgeCfg) : RunState :=
  { outputs := []
    statuses := List.replicate nodes.length .pending
    edgeStatuses := List.replicate edges.length .pending
    events := []
    statusLog := []
    errors := []
    runLog := [] }

/-- `executePipeline(spec, ctx)`: clone the nodes/edges as pending and run
the node list strictly in order.  (In this typed model `nodes` is always a
list, so the source's `!Array.isArray(nodes)` throw cannot fire; note the
source performs no emptiness check — an empty node list runs zero nodes and
returns normally.) -/
def executePipeline (corrFn : Option Value → Option Value → Value)
    (httpRes : ℕ → Except String (Value × ℕ × List (String × String)))
    (nodes : List NodeCfg) (edges : List EdgeCfg) : RunState :=
  runLoop corrFn httpRes edges nodes.enum (initState nodes edges)

/-! ## The server's `/run` handler (`server.js`) -/

/-- Events emitted on the run's SSE channel by the handler. -/
inductive SEvent where
  | statusEv (phase : String) (errMsg : Option String)
  | planned
  | engineEv (e : Event)
deriving DecidableEq

/-- The HTTP response of `/run`: its status code and whether the body
reports `status: 'ok'`. -/
structure HttpResponse where
  httpStatus : ℕ
  okStatus : Bool
  errMsg : Option String
deriving DecidableEq

/-- The handler's spec validation, the negation of
`!spec || !Array.isArray(spec.nodes) || spec.nodes.length === 0`. -/
def validSpecNodes (spec : Value) : Bool :=
  truthy spec &&
    match getField spec "nodes" with
    | some (.arr l) => !l.isEmpty
    | _ => false

/-- The message of the error thrown on an invalid planner spec. -/
def invalidSpecMsg : String := "planner produced an empty or invalid spec"

/-- Result of the `/run` handler: HTTP response plus emitted SSE events. -/
structure ServerRun where
  response : HttpResponse
  events : List SEvent

/-- The `/run` handler after planning: emit `accepted` and `planning`
status events, validate the planned spec — an invalid spec throws, reaching
the catch block which emits a `failed` status event carrying the message
and answers HTTP 500 — otherwise emit `planned`/`executing`, relay the
engine's events, emit `finished` and answer HTTP 200 with `status: 'ok'`.
The engine's event stream for the valid branch is the `engineEvents`
parameter. -/
def postRun (spec : Value) (engineEvents : List Event) : ServerRun :=
  let pre := [SEvent.statusEv "accepted" none, SEvent.statusEv "planning" none]
  if validSpecNodes spec then
    { response := { httpStatus := 200, okStatus := true, errMsg := none }
      events := pre ++ [SEvent.planned, SEvent.statusEv "executing" none] ++
        engineEvents.map SEvent.engineEv ++ [SEvent.statusEv "finished" none] }
  else
    { response := { httpStatus := 500, okStatus := false, errMsg := some invalidSpecMsg }
      events := pre ++ [SEvent.statusEv "failed" (some invalidSpecMsg)] }

/-- The claim's invalid-spec condition: the `nodes` field is missing, not a
list, or an empty list. -/
def nodesInvalid (spec : Value) : Bool :=
  match getField spec "nodes" with
  | some (.arr l) => l.isEmpty
  | some _ => true
  | none => true

/-! ## Concrete fixtures used by witnesses -/

/-- A transform node whose `fn` names no known transform. -/
def bogusNode : NodeCfg := { id := "t_bogus", ntype := .transform, fn := "frobnicate" }

/-- A trivial stand-in for the correlation value function. -/
def noCorr : Option Value → Option Value → Value := fun _ _ => .null

/-- An HTTP environment that is never consulted. -/
def noHttp : ℕ → Except String (Value × ℕ × List (String × String)) :=
  fun _ => .error "unused"

/-- The interpolation scenario's scope: `outputs.a.lat=[1,2]`,
`outputs.a.lon=[10,20]`, explicit zero-coordinate origin. -/
def scope9 : Value := .obj
  [("outputs", .obj [("a", .obj
      [("lat", .arr [.num 1, .num 2]), ("lon", .arr [.num 10, .num 20])])]),
   ("context", .obj []),
   ("_origin", .obj [("lat", .num 0), ("lon", .num 0)])]

/-! # Theorems

## C2 — unknown transform function names -/

/-- An unknown `fn` takes the dispatch's final `else` branch: the transform
returns its resolved `args.from` input (or `null`) instead of throwing. -/
lemma runTransformNode_unknown (corrFn : Option Value → Option Value → Value)
    (node : NodeCfg) (outputs : List (String × Value))
    (h : node.fn ∉ knownTransforms) :
    runTransformNode corrFn node outputs =
      nullishOr (resolveArg outputs node.args.fromPath) .null := by
  simp only [knownTransforms, List.mem_cons, List.not_mem_nil, or_false] at h
  push_neg at h
  obtain ⟨h1, h2, h3, h4, h5⟩ := h
  simp [runTransformNode, h1, h2, h3, h4, h5]

/-- C2 counterexample: a transform node with the unknown function name
`"frobnicate"` ends in the `completed` state and records no error entry —
the claim says it must fail with a recorded error. -/
theorem C2_counterexample :
    (executePipeline noCorr noHttp [bogusNode] []).statuses = [.completed] ∧
    (executePipeline noCorr noHttp [bogusNode] []).errors = [] :=
  ⟨rfl, rfl⟩

/-- C2 (amended): a transform node whose `fn` names no known transform does
not produce a Node Failure: the engine completes it, storing the resolved
`args.from` input (or `null`) under its id, records no error entry at its
step, and proceeds exactly as for any successful node (running then
completed, `node_start` then `node_complete`). -/
theorem C2_unknown_fn_completes (corrFn : Option Value → Option Value → Value)
    (httpRes : ℕ → Except String (Value × ℕ × List (String × String)))
    (edges : List EdgeCfg) (i : ℕ) (node : NodeCfg) (s : RunState)
    (ht : node.ntype = .transform) (hfn : node.fn ∉ knownTransforms) :
    (stepNode corrFn httpRes edges i node s).outputs =
      s.outputs ++ [(node.id, nullishOr (resolveArg s.outputs node.args.fromPath) .null)] ∧
    (stepNode corrFn httpRes edges i node s).errors = s.errors ∧
    (stepNode corrFn httpRes edges i node s).statusLog =
      s.statusLog ++ [(i, .running), (i, .completed)] ∧
    (stepNode corrFn httpRes edges i node s).events =
      s.events ++ [.nodeStart node.id, .nodeComplete node.id] := by
  have hout : nodeOutcome corrFn httpRes i node s.outputs =
      .ok (nullishOr (resolveArg s.outputs node.args.fromPath) .null, 1, []) := by
    simp [nodeOutcome, ht, runTransformNode_unknown corrFn node s.outputs hfn]
  refine ⟨?_, ?_, ?_, ?_⟩ <;> simp [stepNode, hout]

/-- C2 witness: the amended behavior at the concrete unknown-fn node. -/
theorem C2_unknown_fn_completes_witness :
    (stepNode noCorr noHttp [] 0 bogusNode (initState [bogusNode] [])).errors = [] ∧
    (stepNode noCorr noHttp [] 0 bogusNode (initState [bogusNode] [])).statusLog =
      [(0, .running), (0, .completed)] := by
  have h := C2_unknown_fn_completes noCorr noHttp [] 0 bogusNode
    (initState [bogusNode] []) rfl (by decide)
  exact ⟨h.2.1.trans rfl, by simpa using h.2.2.1⟩

/-! ## C3 — retry with exponential backoff -/

/-- Unfolding: a successful attempt returns immediately. -/
lemma runAttemptsFrom_ok (nodeId : String) (fb : Bool) (backoff : ℚ)
    (outcome : ℕ → Except String Value) (attempt remaining : ℕ) (v : Value)
    (h : outcome attempt = .ok v) :
    runAttemptsFrom nodeId fb backoff outcome attempt remaining =
      { result := .ok v, attempts := attempt, delays := [] } := by
  cases remaining <;> · rw [runAttemptsFrom, h]

/-- Unfolding: a failure with no retries left throws. -/
lemma runAttemptsFrom_error_zero (nodeId : String) (fb : Bool) (backoff : ℚ)
    (outcome : ℕ → Except String Value) (attempt : ℕ) (msg : String)
    (h : outcome attempt = .error msg) :
    runAttemptsFrom nodeId fb backoff outcome attempt 0 =
      { result := .error (if fb then fmtExhausted nodeId attempt msg else msg)
        attempts := attempt
        delays := [] } := by
  rw [runAttemptsFrom, h]

/-- Unfolding: a failure with retries left sleeps and retries. -/
lemma runAttemptsFrom_error_succ (nodeId : String) (fb : Bool) (backoff : ℚ)
    (outcome : ℕ → Except String Value) (attempt r : ℕ) (msg : String)
    (h : outcome attempt = .error msg) :
    runAttemptsFrom nodeId fb backoff outcome attempt (r + 1) =
      { runAttemptsFrom nodeId fb backoff outcome (attempt + 1) r with
        delays := backoff * 2 ^ (attempt - 1) ::
          (runAttemptsFrom nodeId fb backoff outcome (attempt + 1) r).delays } := by
  rw [runAttemptsFrom, h]

/-- The retry loop never makes more than `attempt + remaining` attempts. -/
lemma runAttemptsFrom_attempts_le (nodeId : String) (fb : Bool) (backoff : ℚ)
    (outcome : ℕ → Except String Value) :
    ∀ remaining attempt,
      (runAttemptsFrom nodeId fb backoff outcome attempt remaining).attempts ≤
        attempt + remaining := by
  intro remaining
  induction remaining with
  | zero =>
    intro attempt
    cases h : outcome attempt with
    | ok v =>
      rw [runAttemptsFrom_ok nodeId fb backoff outcome attempt 0 v h]
      simp
    | error m =>
      rw [runAttemptsFrom_error_zero nodeId fb backoff outcome attempt m h]
      simp
  | succ r ih =>
    intro attempt
    cases h : outcome attempt with
    | ok v =>
      rw [runAttemptsFrom_ok nodeId fb backoff outcome attempt (r + 1) v h]
      simp only []
      omega
    | error m =>
      rw [runAttemptsFrom_error_succ nodeId fb backoff outcome attempt r m h]
      have := ih (attempt + 1)
      simp only []
      omega

/-- When every attempt fails, the loop makes exactly `attempt + remaining`
attempts, sleeps `backoff * 2^(k-1)` after each failing attempt `k` except
the last, and ends with the last error (formatted only under a declared
fallback). -/
lemma runAttemptsFrom_allFail (nodeId : String) (fb : Bool) (backoff : ℚ)
    (outcome : ℕ → Except String Value) :
    ∀ (remaining attempt : ℕ), 1 ≤ attempt →
    (∀ k, attempt ≤ k → k ≤ attempt + remaining → ∃ m, outcome k = .error m) →
    (runAttemptsFrom nodeId fb backoff outcome attempt remaining).attempts =
      attempt + remaining ∧
    (runAttemptsFrom nodeId fb backoff outcome attempt remaining).delays.length =
      remaining ∧
    (∀ j, j < remaining →
      (runAttemptsFrom nodeId fb backoff outcome attempt remaining).delays[j]? =
        some (backoff * 2 ^ (attempt - 1 + j))) ∧
    ∃ m, outcome (attempt + remaining) = .error m ∧
      (runAttemptsFrom nodeId fb backoff outcome attempt remaining).result =
        .error (if fb then fmtExhausted nodeId (attempt + remaining) m else m) := by
  intro remaining
  induction remaining with
  | zero =>
    intro attempt h1 hfail
    obtain ⟨m, hm⟩ := hfail attempt le_rfl (by omega)
    rw [runAttemptsFrom_error_zero nodeId fb backoff outcome attempt m hm]
    exact ⟨rfl, rfl, fun j hj => absurd hj (by omega), m, by simpa using hm, rfl⟩
  | succ r ih =>
    intro attempt h1 hfail
    obtain ⟨m0, hm0⟩ := hfail attempt le_rfl (by omega)
    have ihr := ih (attempt + 1) (by omega)
      (fun k hk1 hk2 => hfail k (by omega) (by omega))
    have harith : attempt + 1 + r = attempt + (r + 1) := by omega
    rw [runAttemptsFrom_error_succ nodeId fb backoff outcome attempt r m0 hm0]
    refine ⟨?_, ?_, ?_, ?_⟩
    · show (runAttemptsFrom nodeId fb backoff outcome (attempt + 1) r).attempts = _
      rw [← harith]; exact ihr.1
    · show _ + 1 = r + 1
      rw [ihr.2.1]
    · intro j hj
      cases j with
      | zero => simp
      | succ j' =>
        have hrec := ihr.2.2.1 j' (by omega)
        have harith2 : attempt + 1 - 1 + j' = attempt - 1 + (j' + 1) := by omega
        rw [harith2] at hrec
        simpa using hrec
    · obtain ⟨m, hm, hres⟩ := ihr.2.2.2
      rw [harith] at hm hres
      exact ⟨m, hm, hres⟩

/-- C3 counterexample: with no declared fallback, the error produced after
exhausting retries is the raw last error message — it does not carry the
attempt count (here two attempts were made, yet the error is just
`"boom"`, not the formatted attempt-counting message). -/
theorem C3_counterexample :
    (runHttpNode "n" false 1 100 (fun _ => .error "boom")).result = .error "boom" ∧
    "boom" ≠ fmtExhausted "n" 2 "boom" :=
  ⟨rfl, by decide⟩

/-- C3 (amended): for an HTTP node with retry `{times, backoff_ms}` in live
mode, at most `times` additional attempts follow the first; when every
attempt fails, exactly `times + 1` attempts are made, each failing attempt
`k` before the last is followed by a delay of `backoff_ms * 2^(k-1)`
(`delays[j]` is the delay after attempt `j+1`), and the node fails with the
last error message — formatted with the attempt count only when a fallback
is declared, rethrown raw otherwise. -/
theorem C3_retry_backoff (nodeId : String) (fb : Bool) (times : ℕ) (backoff : ℚ)
    (outcome : ℕ → Except String Value)
    (hfail : ∀ k, 1 ≤ k → k ≤ times + 1 → ∃ m, outcome k = .error m) :
    (∀ outcome' : ℕ → Except String Value,
      (runHttpNode nodeId fb times backoff outcome').attempts ≤ times + 1) ∧
    (runHttpNode nodeId fb times backoff outcome).attempts = times + 1 ∧
    (runHttpNode nodeId fb times backoff outcome).delays.length = times ∧
    (∀ j, j < times →
      (runHttpNode nodeId fb times backoff outcome).delays[j]? =
        some (backoff * 2 ^ j)) ∧
    (∃ m, outcome (times + 1) = .error m ∧
      (runHttpNode nodeId fb times backoff outcome).result =
        .error (if fb then fmtExhausted nodeId (times + 1) m else m)) := by
  have h := runAttemptsFrom_allFail nodeId fb backoff outcome times 1 le_rfl
    (fun k hk1 hk2 => hfail k hk1 (by omega))
  have harith : 1 + times = times + 1 := by omega
  rw [harith] at h
  refine ⟨fun o' => ?_, h.1, h.2.1, fun j hj => ?_, h.2.2.2⟩
  · have := runAttemptsFrom_attempts_le nodeId fb backoff o' times 1
    simpa [runHttpNode, harith] using this
  · have := h.2.2.1 j hj
    simpa using this

/-- C3 witness: three attempts, delays 100 then 200. -/
theorem C3_retry_backoff_witness :
    (runHttpNode "n" false 2 100 (fun _ => .error "boom")).attempts = 3 ∧
    (runHttpNode "n" false 2 100 (fun _ => .error "boom")).delays[1]? = some 200 := by
  have h := C3_retry_backoff "n" false 2 100 (fun _ => .error "boom")
    (fun k _ _ => ⟨"boom", rfl⟩)
  refine ⟨h.2.1, ?_⟩
  have := h.2.2.2.1 1 (by norm_num)
  norm_num at this
  exact this

/-! ## C8 — invalid specification fails fast -/

/-- C8: when the planned spec's `nodes` field is missing, not a list, or an
empty list, the `/run` handler fails before the engine runs: the response
is HTTP 500 with a non-`ok` status carrying the invalid-spec message, the
event stream is exactly the two pre-run status events followed by the
run-level `failed` status event carrying that message, and no per-node
engine event is ever emitted. -/
theorem C8_invalid_spec_fails_fast (spec : Value) (engineEvents : List Event)
    (h : nodesInvalid spec = true) :
    (postRun spec engineEvents).response.httpStatus = 500 ∧
    (postRun spec engineEvents).response.okStatus = false ∧
    (postRun spec engineEvents).response.errMsg = some invalidSpecMsg ∧
    (postRun spec engineEvents).events =
      [SEvent.statusEv "accepted" none, SEvent.statusEv "planning" none,
        SEvent.statusEv "failed" (some invalidSpecMsg)] ∧
    ∀ e : Event, SEvent.engineEv e ∉ (postRun spec engineEvents).events := by
  have hv : validSpecNodes spec = false := by
    unfold nodesInvalid at h
    unfold validSpecNodes
    cases hg : getField spec "nodes" with
    | none => simp [hg]
    | some v => cases v <;> simp_all [hg]
  refine ⟨by simp [postRun, hv], by simp [postRun, hv], by simp [postRun, hv],
    by simp [postRun, hv], fun e => by simp [postRun, hv]⟩

/-- C8 witness: a spec with an empty `nodes` list is answered with 500. -/
theorem C8_invalid_spec_fails_fast_witness :
    (postRun (.obj [("nodes", .arr [])]) []).response.httpStatus = 500 :=
  (C8_invalid_spec_fails_fast (.obj [("nodes", .arr [])]) [] (by decide)).1

/-! ## C9 — `join_coords` interpolation -/

/-- A `"lon,lat"` pair string is never empty. -/
lemma coordPair_ne_empty (a b : String) : (a ++ "," ++ b) ≠ "" := by
  intro h
  have hlen := congrArg String.length h
  have hc : ("," : String).length = 1 := rfl
  simp [String.length_append, hc] at hlen

/-- `filterMap` by an everywhere-defined function is a `map`. -/
lemma filterMap_eq_map_of_some {α β : Type _} (l : List α) (f : α → Option β)
    (g : α → β) (h : ∀ a ∈ l, f a = some (g a)) : l.filterMap f = l.map g := by
  induction l with
  | nil => simp
  | cons a t ih =>
    rw [List.filterMap_cons, h a (by simp), List.map_cons,
      ih fun b hb => h b (by simp [hb])]

/-- The filtered index loop over two all-numeric parallel arrays produces
exactly the zipped `"lon,lat"` pair strings. -/
lemma zipPairs_eq (lons lats : List ℚ) :
    (List.range (min (lats.map Value.num).length (lons.map Value.num).length)).filterMap
      (fun i =>
        match (lons.map Value.num).getD i .null, (lats.map Value.num).getD i .null with
        | .null, _ => none
        | _, .null => none
        | lon, lat => some (jsToString lon ++ "," ++ jsToString lat)) =
    (lons.zip lats).map fun p => numToString p.1 ++ "," ++ numToString p.2 := by
  have hsome : ∀ i ∈ List.range (min (lats.map Value.num).length (lons.map Value.num).length),
      (match (lons.map Value.num).getD i Value.null, (lats.map Value.num).getD i Value.null with
        | Value.null, _ => none
        | _, Value.null => none
        | lon, lat => some (jsToString lon ++ "," ++ jsToString lat)) =
      some (numToString (lons.getD i 0) ++ "," ++ numToString (lats.getD i 0)) := by
    intro i hi
    rw [List.mem_range] at hi
    have hila : i < lats.length := by
      simpa using lt_of_lt_of_le hi (min_le_left _ _)
    have hilo : i < lons.length := by
      simpa using lt_of_lt_of_le hi (min_le_right _ _)
    have h1 : (lats.map Value.num).getD i .null = .num (lats.getD i 0) := by
      rw [List.getD_eq_getElem?_getD, List.getD_eq_getElem?_getD,
        List.getElem?_map, List.getElem?_eq_getElem hila]
      simp
    have h2 : (lons.map Value.num).getD i .null = .num (lons.getD i 0) := by
      rw [List.getD_eq_getElem?_getD, List.getD_eq_getElem?_getD,
        List.getElem?_map, List.getElem?_eq_getElem hilo]
      simp
    rw [h1, h2]
    rfl
  refine (filterMap_eq_map_of_some _ _ _ hsome).trans ?_
  apply List.ext_getElem
  · simp [List.length_zip, min_comm]
  · intro i h1 h2
    have hz : i < min lons.length lats.length := by simpa using h2
    have hla : i < lats.length := lt_of_lt_of_le hz (min_le_right _ _)
    have hlo : i < lons.length := lt_of_lt_of_le hz (min_le_left _ _)
    simp only [List.getElem_map, List.getElem_range, List.getElem_zip]
    rw [List.getD_eq_getElem _ _ hlo, List.getD_eq_getElem _ _ hla]

/-- C9: with an explicit origin in scope (a zero-coordinate origin still
counts as present, since the code tests `!= null`, not truthiness), a
`join_coords` placeholder over two parallel numeric arrays yields the
`;`-joined `"lon,lat"` pairs with the origin prepended as the first pair;
when either resolved input is not an array the placeholder yields the empty
string; and the spec's interpolation scenario evaluates to
`"0,0;10,1;20,2"`. -/
theorem C9_join_coords :
    (∀ (scope : Value) (latPath lonPath : String) (olat olon : ℚ)
      (lats lons : List ℚ),
      getField scope "_origin" = some (.obj [("lat", .num olat), ("lon", .num olon)]) →
      resolvePathLike scope latPath = some (.arr (lats.map .num)) →
      resolvePathLike scope lonPath = some (.arr (lons.map .num)) →
      evalCall scope (.joinCoords latPath lonPath) =
        String.intercalate ";" ((numToString olon ++ "," ++ numToString olat) ::
          ((lons.zip lats).map fun p => numToString p.1 ++ "," ++ numToString p.2))) ∧
    (∀ (scope : Value) (latPath lonPath : String),
      (¬ ∃ lats lons, resolvePathLike scope latPath = some (.arr lats) ∧
        resolvePathLike scope lonPath = some (.arr lons)) →
      evalCall scope (.joinCoords latPath lonPath) = "") ∧
    interpolate [.ph (.joinCoords "outputs.a.lat" "outputs.a.lon")] scope9 =
      "0,0;10,1;20,2" := by
  refine ⟨?_, ?_, ?_⟩
  · intro scope latPath lonPath olat olon lats lons hO hLat hLon
    have horig : originCoords scope = numToString olon ++ "," ++ numToString olat := by
      unfold originCoords
      rw [hO]
      rfl
    have hne : ((numToString olon ++ "," ++ numToString olat) != "") = true :=
      bne_iff_ne.mpr (coordPair_ne_empty _ _)
    simp only [evalCall, evalJoinCoords, hLat, hLon, horig, hne, if_true]
    rw [zipPairs_eq]
    simp
  · intro scope latPath lonPath h
    simp only [evalCall, evalJoinCoords]
    split
    · rename_i lats lons hla hlo
      exact absurd ⟨lats, lons, hla, hlo⟩ h
    · rfl
  · rfl

/-- C9 witness: the universal part applied at the concrete scenario scope. -/
theorem C9_join_coords_witness :
    evalCall scope9 (.joinCoords "outputs.a.lat" "outputs.a.lon") =
      String.intercalate ";" ((numToString 0 ++ "," ++ numToString 0) ::
        (([(10 : ℚ), 20].zip [(1 : ℚ), 2]).map fun p =>
          numToString p.1 ++ "," ++ numToString p.2)) :=
  C9_join_coords.1 scope9 "outputs.a.lat" "outputs.a.lon" 0 0 [1, 2] [10, 20]
    rfl rfl rfl

/-! ## C4 — fan-out dispatch and merge -/

/-- The number of attempts a fan-out call actually made: a fulfilled call
reports its own count, and a rejected `runHttpNode` has by then made
exactly `retry.times + 1` attempts (`runAttemptsFrom_allFail`), which is
the figure the merge loop uses for a rejected position. -/
def fanAttempts (retryTimes : ℕ) : FanCall → ℕ
  | .ok d => d.2
  | .error _ => retryTimes + 1

/-- `foldl max` dominates the start and every element, and is attained. -/
lemma foldl_max_spec (l : List ℕ) : ∀ a : ℕ,
    a ≤ l.foldl max a ∧ (∀ x ∈ l, x ≤ l.foldl max a) ∧
      (l.foldl max a = a ∨ l.foldl max a ∈ l) := by
  induction l with
  | nil => simp
  | cons b t ih =>
    intro a
    obtain ⟨h1, h2, h3⟩ := ih (max a b)
    simp only [List.foldl_cons]
    refine ⟨le_trans (le_max_left a b) h1, fun x hx => ?_, ?_⟩
    · rcases List.mem_cons.mp hx with hx | hx
      · rw [hx]
        exact le_trans (le_max_right a b) h1
      · exact h2 x hx
    · rcases h3 with h | h
      · rcases max_choice a b with hm | hm
        · exact Or.inl (h.trans hm)
        · exact Or.inr (by rw [h, hm]; exact List.mem_cons_self b t)
      · exact Or.inr (List.mem_cons_of_mem b h)

/-- The merge's running maximum is a `foldl max` over the per-call attempt
figures. -/
lemma runFanout_maxAttempts_eq (nodeId : String) (mapKeys : List String)
    (retryTimes : ℕ) (fmax : Option ℕ) (baseLen : ℕ) (calls : ℕ → FanCall) :
    (runFanout nodeId mapKeys retryTimes fmax baseLen calls).maxAttempts =
      ((List.range (fanoutCap fmax baseLen)).map
        (fun j => fanAttempts retryTimes (calls j))).foldl max 1 := by
  have key : ∀ (l : List ℕ) (a : ℕ),
      l.foldl (fun m j =>
        match calls j with
        | .ok d => max m d.2
        | .error _ => max m (retryTimes + 1)) a =
      l.foldl (fun m j => max m (fanAttempts retryTimes (calls j))) a := by
    intro l
    induction l with
    | nil => intro a; rfl
    | cons b t ih =>
      intro a
      simp only [List.foldl_cons]
      have hacc : (match calls b with
          | .ok d => max a d.2
          | .error _ => max a (retryTimes + 1)) =
          max a (fanAttempts retryTimes (calls b)) := by
        cases hb : calls b <;> simp [fanAttempts]
      rw [hacc, ih]
  simp only [runFanout]
  rw [key, List.foldl_map]

/-- The length of a `filterMap` is the length of the `isSome` filter. -/
lemma filterMap_length_eq_filter {α β : Type _} (l : List α) (f : α → Option β) :
    (l.filterMap f).length = (l.filter fun a => (f a).isSome).length := by
  induction l with
  | nil => rfl
  | cons a t ih => cases h : f a <;> simp [List.filterMap_cons, h, List.filter_cons, ih]

/-- C4: with fan-out over a collection of length `L` and positive cap `max`,
exactly `min(max, L)` calls are dispatched; every merged column has
`min(max, L)` positions; a rejected position is `null` in every column while
a fulfilled position keeps its own mapped value (one item's failure does
not disturb the others); there is exactly one error entry per rejected
index, scoped `nodeId[index]`; and the reported attempt count is the
maximum attempt figure across the fan-out calls. -/
theorem C4_fanout_merge (nodeId : String) (mapKeys : List String)
    (retryTimes : ℕ) (m : ℕ) (hm : 0 < m) (baseLen : ℕ) (calls : ℕ → FanCall)
    (hatt : ∀ j, j < min m baseLen → 1 ≤ fanAttempts retryTimes (calls j)) :
    (runFanout nodeId mapKeys retryTimes (some m) baseLen calls).dispatched =
      min m baseLen ∧
    (∀ kc ∈ (runFanout nodeId mapKeys retryTimes (some m) baseLen calls).merged,
      kc.2.length = min m baseLen) ∧
    (∀ kc ∈ (runFanout nodeId mapKeys retryTimes (some m) baseLen calls).merged,
      ∀ j e, j < min m baseLen → calls j = .error e → kc.2[j]? = some .null) ∧
    (∀ kc ∈ (runFanout nodeId mapKeys retryTimes (some m) baseLen calls).merged,
      ∀ j d v, j < min m baseLen → calls j = .ok d → d.1.lookup kc.1 = some v →
        kc.2[j]? = some (mergeVal v)) ∧
    (runFanout nodeId mapKeys retryTimes (some m) baseLen calls).errors.length =
      ((List.range (min m baseLen)).filter fun j =>
        match calls j with
        | .error _ => true
        | .ok _ => false).length ∧
    (∀ j e, j < min m baseLen → calls j = .error e →
      (nodeId ++ "[" ++ toString j ++ "]", e.1) ∈
        (runFanout nodeId mapKeys retryTimes (some m) baseLen calls).errors) ∧
    (∀ j, j < min m baseLen → fanAttempts retryTimes (calls j) ≤
      (runFanout nodeId mapKeys retryTimes (some m) baseLen calls).maxAttempts) ∧
    (0 < min m baseLen → ∃ j, j < min m baseLen ∧
      (runFanout nodeId mapKeys retryTimes (some m) baseLen calls).maxAttempts =
        fanAttempts retryTimes (calls j)) := by
  have hcap : fanoutCap (some m) baseLen = min m baseLen := by
    have hm0 : m ≠ 0 := by omega
    simp [fanoutCap, hm0]
  have hcol : ∀ kc ∈ (runFanout nodeId mapKeys retryTimes (some m) baseLen calls).merged,
      kc.2 = fanColumn calls (fanoutCap (some m) baseLen) kc.1 := by
    intro kc hkc
    simp only [runFanout, List.mem_map] at hkc
    obtain ⟨k, _, hk⟩ := hkc
    rw [← hk]
  have hcolget : ∀ k j, j < min m baseLen →
      (fanColumn calls (fanoutCap (some m) baseLen) k)[j]? =
        some (match calls j with
          | .ok d =>
            match d.1.lookup k with
            | some v => mergeVal v
            | none => .null
          | .error _ => .null) := by
    intro k j hj
    simp [fanColumn, hcap, List.getElem?_map, List.getElem?_range, hj]
  have hmaxeq := runFanout_maxAttempts_eq nodeId mapKeys retryTimes (some m) baseLen calls
  have hfold := foldl_max_spec ((List.range (fanoutCap (some m) baseLen)).map
    (fun j => fanAttempts retryTimes (calls j))) 1
  refine ⟨by simp [runFanout, hcap], ?_, ?_, ?_, ?_, ?_, ?_, ?_⟩
  · intro kc hkc
    rw [hcol kc hkc]
    simp [fanColumn, hcap]
  · intro kc hkc j e hj he
    rw [hcol kc hkc, hcolget kc.1 j hj]
    simp [he]
  · intro kc hkc j d v hj hd hv
    rw [hcol kc hkc, hcolget kc.1 j hj]
    simp [hd, hv]
  · simp only [runFanout]
    rw [filterMap_length_eq_filter, hcap]
    congr 1
    apply List.filter_congr
    intro j _
    cases hj : calls j <;> simp
  · intro j e hj he
    simp only [runFanout, List.mem_filterMap]
    exact ⟨j, by simp [hcap, List.mem_range, hj], by rw [he]⟩
  · intro j hj
    rw [hmaxeq]
    exact hfold.2.1 _ (List.mem_map_of_mem _ (by simp [hcap, List.mem_range, hj]))
  · intro hpos
    rcases hfold.2.2 with h1 | hmem
    · refine ⟨0, hpos, ?_⟩
      have h0le : fanAttempts retryTimes (calls 0) ≤ 1 := by
        have := hfold.2.1 (fanAttempts retryTimes (calls 0))
          (List.mem_map_of_mem _ (by simp [hcap, List.mem_range, hpos]))
        omega
      have h0ge := hatt 0 hpos
      rw [hmaxeq, h1]
      omega
    · rw [hmaxeq]
      rw [List.mem_map] at hmem
      obtain ⟨j, hjmem, hjeq⟩ := hmem
      rw [hcap, List.mem_range] at hjmem
      exact ⟨j, hjmem, hjeq.symm⟩

/-- The fan-out scenario's call results: 5 items, cap 3, call 1 rejected. -/
def fanCalls4 : ℕ → FanCall := fun j =>
  if j == 1 then .error ("timeout", 2)
  else .ok ([("eta", .num (100 * j))], 1)

/-- C4 witness: the fan-out scenario (5 items, `max=3`, one failure). -/
theorem C4_fanout_merge_witness :
    (runFanout "n2" ["eta"] 1 (some 3) 5 fanCalls4).dispatched = min 3 5 ∧
    ("n2" ++ "[" ++ toString 1 ++ "]", "timeout") ∈
      (runFanout "n2" ["eta"] 1 (some 3) 5 fanCalls4).errors := by
  have h := C4_fanout_merge "n2" ["eta"] 1 3 (by decide) 5 fanCalls4 (by decide)
  exact ⟨h.1, h.2.2.2.2.2.1 1 ("timeout", 2) (by decide) rfl⟩

/-! ## C7 — stable top-n selection -/

/-- Inserting into a list does not disturb the filter by any predicate whose
satisfying elements are mutually related (the tie class of one sort key):
the inserted element lands in front of the filter when it satisfies the
predicate, because every element skipped over by `orderedInsert` fails it. -/
lemma filter_orderedInsert {α : Type _} (r : α → α → Prop) [DecidableRel r]
    (p : α → Bool) (hp : ∀ a b, p a = true → p b = true → r a b) (x : α) :
    ∀ L : List α, (L.orderedInsert r x).filter p =
      if p x then x :: L.filter p else L.filter p := by
  intro L
  induction L with
  | nil =>
    simp only [List.orderedInsert, List.filter_cons, List.filter_nil]
  | cons y L ih =>
    by_cases hr : r x y
    · simp only [List.orderedInsert, if_pos hr, List.filter_cons]
    · have key : p x = true → p y = false := fun hx => by
        cases hyy : p y
        · rfl
        · exact absurd (hp x y hx hyy) hr
      simp only [List.orderedInsert, if_neg hr, List.filter_cons, ih]
      cases hx : p x with
      | true => simp [key hx]
      | false => simp

/-- Insertion sort is stable: it does not reorder any tie class. -/
lemma filter_insertionSort {α : Type _} (r : α → α → Prop) [DecidableRel r]
    (p : α → Bool) (hp : ∀ a b, p a = true → p b = true → r a b) :
    ∀ l : List α, (List.insertionSort r l).filter p = l.filter p := by
  intro l
  induction l with
  | nil => rfl
  | cons a l ih =>
    simp only [List.insertionSort]
    rw [filter_orderedInsert r p hp a]
    by_cases hx : p a = true
    · rw [if_pos hx, ih, List.filter_cons, if_pos hx]
    · rw [if_neg hx, ih, List.filter_cons, if_neg hx]

/-- C7: `top_n(rows, {n, by, desc=true})` returns `min n (len rows)` rows,
sorted non-increasingly by the numeric value of the `by` field
(missing/non-numeric read as 0); ties keep their original relative order
(each tie class of the output is an initial segment of the input's tie
class, in input order); the output together with the dropped suffix of the
sort is a permutation of the input; and every returned row's value is at
least every excluded row's value. -/
theorem C7_top_n (rows : List Value) (n : ℕ) (k : String) :
    (t_top_n (.arr rows) n k true).length = min n rows.length ∧
    (t_top_n (.arr rows) n k true).Pairwise
      (fun a b => numOr0 b k ≤ numOr0 a k) ∧
    (∀ v : ℚ, (t_top_n (.arr rows) n k true).filter (fun r => numOr0 r k == v) =
      (rows.filter (fun r => numOr0 r k == v)).take
        (((t_top_n (.arr rows) n k true).filter (fun r => numOr0 r k == v)).length)) ∧
    rows.Perm (t_top_n (.arr rows) n k true ++
      (List.insertionSort (topRel true k) rows).drop n) ∧
    (∀ a ∈ t_top_n (.arr rows) n k true,
      ∀ b ∈ (List.insertionSort (topRel true k) rows).drop n,
        numOr0 b k ≤ numOr0 a k) := by
  haveI : IsTotal Value (topRel true k) :=
    ⟨fun a b => le_total (sortKeyQ true k a) (sortKeyQ true k b)⟩
  haveI : IsTrans Value (topRel true k) :=
    ⟨fun a b c hab hbc => le_trans hab hbc⟩
  have heq : t_top_n (.arr rows) n k true =
      (List.insertionSort (topRel true k) rows).take n := rfl
  have hsort := List.sorted_insertionSort (topRel true k) rows
  have hlen : (List.insertionSort (topRel true k) rows).length = rows.length :=
    (List.perm_insertionSort (topRel true k) rows).length_eq
  have himp : ∀ a b : Value, topRel true k a b → numOr0 b k ≤ numOr0 a k := by
    intro a b hab
    simpa [topRel, sortKeyQ] using hab
  refine ⟨?_, ?_, ?_, ?_, ?_⟩
  · rw [heq, List.length_take, hlen]
  · rw [heq]
    exact ((hsort.sublist (List.take_sublist n _)).imp fun hab => himp _ _ hab)
  · intro v
    have hp : ∀ a b : Value, (numOr0 a k == v) = true → (numOr0 b k == v) = true →
        topRel true k a b := by
      intro a b ha hb
      have h1 : numOr0 a k = v := by simpa using ha
      have h2 : numOr0 b k = v := by simpa using hb
      simp [topRel, sortKeyQ, h1, h2]
    have hfs := filter_insertionSort (topRel true k) (fun r => numOr0 r k == v)
      hp rows
    have hsplit : rows.filter (fun r => numOr0 r k == v) =
        ((List.insertionSort (topRel true k) rows).take n).filter
          (fun r => numOr0 r k == v) ++
        ((List.insertionSort (topRel true k) rows).drop n).filter
          (fun r => numOr0 r k == v) := by
      rw [← List.filter_append, List.take_append_drop, hfs]
    rw [heq, hsplit, List.take_left]
  · rw [heq, List.take_append_drop]
    exact (List.perm_insertionSort (topRel true k) rows).symm
  · intro a ha b hb
    rw [heq] at ha
    have hsort2 := hsort
    rw [← List.take_append_drop n (List.insertionSort (topRel true k) rows)] at hsort2
    exact himp _ _ (((List.pairwise_append.mp hsort2).2.2) a ha b hb)

/-- Rows for the top-n witness: scores 3, 5, 3, 7 with tags a–d. -/
def rowsTop : List Value :=
  [.obj [("score", .num 3), ("tag", .str "a")],
   .obj [("score", .num 5), ("tag", .str "b")],
   .obj [("score", .num 3), ("tag", .str "c")],
   .obj [("score", .num 7), ("tag", .str "d")]]

/-- C7 witness: length and the dominance of kept over excluded rows at a
concrete instance. -/
theorem C7_top_n_witness :
    (t_top_n (.arr rowsTop) 3 "score" true).length = min 3 4 ∧
    rowsTop.Perm (t_top_n (.arr rowsTop) 3 "score" true ++
      (List.insertionSort (topRel true "score") rowsTop).drop 3) := by
  have h := C7_top_n rowsTop 3 "score"
  exact ⟨h.1, h.2.2.2.1⟩

/-! ## C5 / C10 — the engine loop: strict order, terminal states, and the
output store -/

/-- The outcome of one node's execution, as observed from the run record:
whether it completed, and the value stored on completion. -/
structure StepRec where
  ok : Bool
  val : Value

/-- The status assignments produced by running nodes `k, k+1, ...`:
each node is marked running and then assigned exactly one terminal state
before the next node's segment begins. -/
def segLog (k : ℕ) : List StepRec → List (ℕ × Status)
  | [] => []
  | rec :: rest =>
    (k, .running) :: (k, if rec.ok then .completed else .failed) ::
      segLog (k + 1) rest

/-- The entries appended to the output store by a run: one entry per
completed node, in execution order; failed nodes write nothing. -/
def okOutputs : List NodeCfg → List StepRec → List (String × Value)
  | node :: nodes, rec :: recs =>
    if rec.ok then (node.id, rec.val) :: okOutputs nodes recs
    else okOutputs nodes recs
  | _, _ => []

/-- Main loop invariant: running the remaining nodes `rest` (numbered from
`k`) appends per-node `running`/terminal pairs to the status log, appends
one output entry per completed node, installs each node's terminal status
at its index, and leaves statuses below `k` untouched. -/
lemma runLoop_spec (corrFn : Option Value → Option Value → Value)
    (httpRes : ℕ → Except String (Value × ℕ × List (String × String)))
    (edges : List EdgeCfg) :
    ∀ (rest : List NodeCfg) (k : ℕ) (s : RunState),
    k + rest.length ≤ s.statuses.length →
    ∃ recs : List StepRec,
      recs.length = rest.length ∧
      (runLoop corrFn httpRes edges (List.enumFrom k rest) s).statusLog =
        s.statusLog ++ segLog k recs ∧
      (runLoop corrFn httpRes edges (List.enumFrom k rest) s).outputs =
        s.outputs ++ okOutputs rest recs ∧
      (∀ j rec, recs[j]? = some rec →
        (runLoop corrFn httpRes edges (List.enumFrom k rest) s).statuses[k + j]? =
          some (if rec.ok then .completed else .failed)) ∧
      (∀ i, i < k →
        (runLoop corrFn httpRes edges (List.enumFrom k rest) s).statuses[i]? =
          s.statuses[i]?) ∧
      (runLoop corrFn httpRes edges (List.enumFrom k rest) s).statuses.length =
        s.statuses.length := by
  intro rest
  induction rest with
  | nil =>
    intro k s _
    exact ⟨[], rfl, by simp [List.enumFrom, runLoop, segLog],
      by simp [List.enumFrom, runLoop, okOutputs], fun j rec hj => by simp at hj,
      fun i _ => by simp [List.enumFrom, runLoop], by simp [List.enumFrom, runLoop]⟩
  | cons node rest' ih =>
    intro k s hbound
    have hk : k < s.statuses.length := by
      simp only [List.length_cons] at hbound
      omega
    cases hout : nodeOutcome corrFn httpRes k node s.outputs with
    | ok va =>
      have hfields :
          (stepNode corrFn httpRes edges k node s).statusLog =
            s.statusLog ++ [(k, .running), (k, .completed)] ∧
          (stepNode corrFn httpRes edges k node s).outputs =
            s.outputs ++ [(node.id, va.1)] ∧
          (stepNode corrFn httpRes edges k node s).statuses =
            (s.statuses.set k .running).set k .completed ∧
          (stepNode corrFn httpRes edges k node s).statuses.length =
            s.statuses.length := by
        refine ⟨?_, ?_, ?_, ?_⟩ <;> simp [stepNode, hout]
      obtain ⟨recs', hlen', hlog', houts', hstat', hbelow', hslen'⟩ :=
        ih (k + 1) (stepNode corrFn httpRes edges k node s)
          (by rw [hfields.2.2.2]; simp only [List.length_cons] at hbound; omega)
      refine ⟨⟨true, va.1⟩ :: recs', by simp [hlen'], ?_, ?_, ?_, ?_, ?_⟩
      · show (runLoop corrFn httpRes edges (List.enumFrom (k + 1) rest')
            (stepNode corrFn httpRes edges k node s)).statusLog = _
        rw [hlog', hfields.1, segLog]
        simp [List.append_assoc]
      · show (runLoop corrFn httpRes edges (List.enumFrom (k + 1) rest')
            (stepNode corrFn httpRes edges k node s)).outputs = _
        rw [houts', hfields.2.1, okOutputs]
        simp [List.append_assoc]
      · intro j rec hj
        cases j with
        | zero =>
          simp only [List.getElem?_cons_zero, Option.some_inj] at hj
          subst hj
          have h1 := hbelow' k (by omega)
          rw [hfields.2.2.1,
            List.getElem?_set_self (by simp [List.length_set]; omega)] at h1
          simpa using h1
        | succ j' =>
          have hj' : recs'[j']? = some rec := by simpa using hj
          have := hstat' j' rec hj'
          show (runLoop corrFn httpRes edges (List.enumFrom (k + 1) rest')
              (stepNode corrFn httpRes edges k node s)).statuses[k + (j' + 1)]? = _
          have harith : k + (j' + 1) = (k + 1) + j' := by omega
          rw [harith]
          exact this
      · intro i hi
        show (runLoop corrFn httpRes edges (List.enumFrom (k + 1) rest')
            (stepNode corrFn httpRes edges k node s)).statuses[i]? = _
        rw [hbelow' i (by omega), hfields.2.2.1,
          List.getElem?_set_ne (by omega : k ≠ i),
          List.getElem?_set_ne (by omega : k ≠ i)]
      · show (runLoop corrFn httpRes edges (List.enumFrom (k + 1) rest')
            (stepNode corrFn httpRes edges k node s)).statuses.length = _
        rw [hslen', hfields.2.2.2]
    | error msg =>
      have hfields :
          (stepNode corrFn httpRes edges k node s).statusLog =
            s.statusLog ++ [(k, .running), (k, .failed)] ∧
          (stepNode corrFn httpRes edges k node s).outputs = s.outputs ∧
          (stepNode corrFn httpRes edges k node s).statuses =
            (s.statuses.set k .running).set k .failed ∧
          (stepNode corrFn httpRes edges k node s).statuses.length =
            s.statuses.length := by
        refine ⟨?_, ?_, ?_, ?_⟩ <;> simp [stepNode, hout]
      obtain ⟨recs', hlen', hlog', houts', hstat', hbelow', hslen'⟩ :=
        ih (k + 1) (stepNode corrFn httpRes edges k node s)
          (by rw [hfields.2.2.2]; simp only [List.length_cons] at hbound; omega)
      refine ⟨⟨false, .null⟩ :: recs', by simp [hlen'], ?_, ?_, ?_, ?_, ?_⟩
      · show (runLoop corrFn httpRes edges (List.enumFrom (k + 1) rest')
            (stepNode corrFn httpRes edges k node s)).statusLog = _
        rw [hlog', hfields.1, segLog]
        simp [List.append_assoc]
      · show (runLoop corrFn httpRes edges (List.enumFrom (k + 1) rest')
            (stepNode corrFn httpRes edges k node s)).outputs = _
        rw [houts', hfields.2.1]
        simp [okOutputs]
      · intro j rec hj
        cases j with
        | zero =>
          simp only [List.getElem?_cons_zero, Option.some_inj] at hj
          subst hj
          have h1 := hbelow' k (by omega)
          rw [hfields.2.2.1,
            List.getElem?_set_self (by simp [List.length_set]; omega)] at h1
          simpa using h1
        | succ j' =>
          have hj' : recs'[j']? = some rec := by simpa using hj
          have := hstat' j' rec hj'
          show (runLoop corrFn httpRes edges (List.enumFrom (k + 1) rest')
              (stepNode corrFn httpRes edges k node s)).statuses[k + (j' + 1)]? = _
          have harith : k + (j' + 1) = (k + 1) + j' := by omega
          rw [harith]
          exact this
      · intro i hi
        show (runLoop corrFn httpRes edges (List.enumFrom (k + 1) rest')
            (stepNode corrFn httpRes edges k node s)).statuses[i]? = _
        rw [hbelow' i (by omega), hfields.2.2.1,
          List.getElem?_set_ne (by omega : k ≠ i),
          List.getElem?_set_ne (by omega : k ≠ i)]
      · show (runLoop corrFn httpRes edges (List.enumFrom (k + 1) rest')
            (stepNode corrFn httpRes edges k node s)).statuses.length = _
        rw [hslen', hfields.2.2.2]

/-- Positions in the status-assignment record: node `j`'s `running` mark
sits at position `2j` and its terminal mark at `2j+1`. -/
lemma segLog_get (recs : List StepRec) : ∀ k : ℕ,
    (segLog k recs).length = 2 * recs.length ∧
    ∀ j rec, recs[j]? = some rec →
      (segLog k recs)[2 * j]? = some (k + j, .running) ∧
      (segLog k recs)[2 * j + 1]? =
        some (k + j, if rec.ok then .completed else .failed) := by
  induction recs with
  | nil => intro k; exact ⟨rfl, fun j rec hj => by simp at hj⟩
  | cons rec0 rest ih =>
    intro k
    constructor
    · simp only [segLog, List.length_cons]
      rw [(ih (k + 1)).1]
      omega
    · intro j rec hj
      cases j with
      | zero =>
        simp only [List.getElem?_cons_zero, Option.some_inj] at hj
        subst hj
        constructor <;> simp [segLog]
      | succ j' =>
        have hj' : rest[j']? = some rec := by simpa using hj
        obtain ⟨h1, h2⟩ := (ih (k + 1)).2 j' rec hj'
        have e1 : 2 * (j' + 1) = 2 * j' + 1 + 1 := by omega
        have e2 : 2 * (j' + 1) + 1 = (2 * j' + 1) + 1 + 1 := by omega
        have e3 : k + (j' + 1) = k + 1 + j' := by omega
        refine ⟨?_, ?_⟩
        · rw [e1, e3]
          simpa [segLog] using h1
        · rw [e2, e3]
          simpa [segLog] using h2

/-- C5: the engine executes nodes strictly in list order.  Every node starts
`pending`; the ordered record of status assignments has exactly `2n`
entries, with node `j` marked `running` at position `2j` and assigned its
single terminal state (`completed` or `failed`) at position `2j+1` — so
node `j+1` is never marked running before node `j` is terminal, and a
failure (a `failed` terminal state) still leaves every subsequent node with
its own segment: the run always processes all `n` nodes. -/
theorem C5_strict_order (corrFn : Option Value → Option Value → Value)
    (httpRes : ℕ → Except String (Value × ℕ × List (String × String)))
    (nodes : List NodeCfg) (edges : List EdgeCfg) :
    (initState nodes edges).statuses = List.replicate nodes.length .pending ∧
    ∃ recs : List StepRec, recs.length = nodes.length ∧
      (executePipeline corrFn httpRes nodes edges).statusLog.length =
        2 * nodes.length ∧
      ∀ j rec, recs[j]? = some rec →
        (executePipeline corrFn httpRes nodes edges).statusLog[2 * j]? =
          some (j, .running) ∧
        (executePipeline corrFn httpRes nodes edges).statusLog[2 * j + 1]? =
          some (j, if rec.ok then .completed else .failed) ∧
        (executePipeline corrFn httpRes nodes edges).statuses[j]? =
          some (if rec.ok then .completed else .failed) := by
  obtain ⟨recs, hlen, hlog, houts, hstat, hbelow, hslen⟩ :=
    runLoop_spec corrFn httpRes edges nodes 0 (initState nodes edges)
      (by simp [initState])
  refine ⟨rfl, recs, hlen, ?_, ?_⟩
  · show (runLoop corrFn httpRes edges (List.enumFrom 0 nodes)
      (initState nodes edges)).statusLog.length = _
    rw [hlog]
    simp only [initState, List.nil_append]
    rw [(segLog_get recs 0).1, hlen]
  · intro j rec hj
    obtain ⟨h1, h2⟩ := (segLog_get recs 0).2 j rec hj
    have h3 := hstat j rec hj
    refine ⟨?_, ?_, ?_⟩
    · show (runLoop corrFn httpRes edges (List.enumFrom 0 nodes)
        (initState nodes edges)).statusLog[2 * j]? = _
      rw [hlog]
      simp only [initState, List.nil_append]
      simpa using h1
    · show (runLoop corrFn httpRes edges (List.enumFrom 0 nodes)
        (initState nodes edges)).statusLog[2 * j + 1]? = _
      rw [hlog]
      simp only [initState, List.nil_append]
      simpa using h2
    · show (runLoop corrFn httpRes edges (List.enumFrom 0 nodes)
        (initState nodes edges)).statuses[j]? = _
      simpa using h3

/-- A two-node fixture: the first (http) node succeeds, the second fails. -/
def twoNodes : List NodeCfg :=
  [{ id := "a", ntype := .http }, { id := "b", ntype := .http }]

/-- An HTTP environment where node 0 succeeds and node 1 fails. -/
def oneFailHttp : ℕ → Except String (Value × ℕ × List (String × String)) :=
  fun i => if i == 0 then .ok (.num 1, 1, []) else .error "boom"

/-- C5 witness: the two-node run has exactly four status assignments. -/
theorem C5_strict_order_witness :
    (executePipeline noCorr oneFailHttp twoNodes []).statusLog.length = 2 * 2 := by
  obtain ⟨-, recs, hlen, hloglen, -⟩ :=
    C5_strict_order noCorr oneFailHttp twoNodes []
  simpa using hloglen

/-- An association-list lookup finds something exactly when the key occurs. -/
lemma lookup_isSome {β : Type _} (nid : String) :
    ∀ l : List (String × β),
      ((l.lookup nid).isSome = true) ↔ nid ∈ l.map Prod.fst := by
  intro l
  induction l with
  | nil => simp
  | cons kv t ih =>
    cases hk : nid == kv.1 with
    | true =>
      have : nid = kv.1 := by simpa using hk
      simp [List.lookup, hk, this]
    | false =>
      have : ¬ nid = kv.1 := by simpa using hk
      simp [List.lookup, hk, this, ih]

/-- In a duplicate-free list, an element determines its index. -/
lemma nodup_getElem?_inj {α : Type _} {l : List α} (h : l.Nodup) {i j : ℕ}
    {x : α} (hi : l[i]? = some x) (hj : l[j]? = some x) : i = j := by
  obtain ⟨hi', hix⟩ := List.getElem?_eq_some.mp hi
  obtain ⟨hj', hjx⟩ := List.getElem?_eq_some.mp hj
  exact (List.Nodup.getElem_inj_iff h).mp (hix.trans hjx.symm)

/-- The output store built by a run holds a key exactly when some completed
node at some position carries that id. -/
lemma okOutputs_lookup : ∀ (nodes : List NodeCfg) (recs : List StepRec)
    (nid : String),
    (((okOutputs nodes recs).lookup nid).isSome = true) ↔
      ∃ (j : ℕ) (node : NodeCfg) (rec : StepRec),
        nodes[j]? = some node ∧ recs[j]? = some rec ∧
        rec.ok = true ∧ node.id = nid := by
  intro nodes
  induction nodes with
  | nil =>
    intro recs nid
    simp [okOutputs]
  | cons node nodes' ih =>
    intro recs nid
    cases recs with
    | nil =>
      constructor
      · intro h
        simp [okOutputs] at h
      · rintro ⟨j, n', r', -, h2, -⟩
        simp at h2
    | cons rec recs' =>
      by_cases hok : rec.ok = true
      · cases hid : nid == node.id with
        | true =>
          have hid' : node.id = nid := by
            have : nid = node.id := by simpa using hid
            exact this.symm
          constructor
          · intro _
            exact ⟨0, node, rec, by simp, by simp, hok, hid'⟩
          · intro _
            simp [okOutputs, hok, List.lookup, hid]
        | false =>
          have hne : ¬ node.id = nid := by
            intro he
            rw [← he] at hid
            simp at hid
          have hstep : ((okOutputs (node :: nodes') (rec :: recs')).lookup nid) =
              (okOutputs nodes' recs').lookup nid := by
            simp [okOutputs, hok, List.lookup, hid]
          rw [hstep, ih recs' nid]
          constructor
          · rintro ⟨j, n', r', h1, h2, h3, h4⟩
            exact ⟨j + 1, n', r', by simpa using h1, by simpa using h2, h3, h4⟩
          · rintro ⟨j, n', r', h1, h2, h3, h4⟩
            cases j with
            | zero =>
              simp only [List.getElem?_cons_zero, Option.some_inj] at h1 h2
              exact absurd (h1 ▸ h4) hne
            | succ j' =>
              exact ⟨j', n', r', by simpa using h1, by simpa using h2, h3, h4⟩
      · have hstep : okOutputs (node :: nodes') (rec :: recs') =
            okOutputs nodes' recs' := by
          simp [okOutputs, hok]
        rw [hstep, ih recs' nid]
        constructor
        · rintro ⟨j, n', r', h1, h2, h3, h4⟩
          exact ⟨j + 1, n', r', by simpa using h1, by simpa using h2, h3, h4⟩
        · rintro ⟨j, n', r', h1, h2, h3, h4⟩
          cases j with
          | zero =>
            simp only [List.getElem?_cons_zero, Option.some_inj] at h1 h2
            exact absurd (h2 ▸ h3) hok
          | succ j' =>
            exact ⟨j', n', r', by simpa using h1, by simpa using h2, h3, h4⟩

/-- C10: node failure is atomic with respect to the output store — assuming
the specification's unique node ids, the store returned by a run holds an
entry under a node's id exactly when that node's terminal status is
`completed`; a failed node writes nothing under its id and leaves all
previously stored outputs unchanged (`okOutputs` skips it). -/
theorem C10_outputs_iff_completed (corrFn : Option Value → Option Value → Value)
    (httpRes : ℕ → Except String (Value × ℕ × List (String × String)))
    (nodes : List NodeCfg) (edges : List EdgeCfg)
    (hids : (nodes.map NodeCfg.id).Nodup) :
    ∀ (j : ℕ) (node : NodeCfg), nodes[j]? = some node →
      ((((executePipeline corrFn httpRes nodes edges).outputs.lookup
          node.id).isSome = true) ↔
        (executePipeline corrFn httpRes nodes edges).statuses[j]? =
          some .completed) := by
  obtain ⟨recs, hlen, hlog, houts, hstat, hbelow, hslen⟩ :=
    runLoop_spec corrFn httpRes edges nodes 0 (initState nodes edges)
      (by simp [initState])
  intro j node hj
  have houts' : (executePipeline corrFn httpRes nodes edges).outputs =
      okOutputs nodes recs := by
    show (runLoop corrFn httpRes edges (List.enumFrom 0 nodes)
      (initState nodes edges)).outputs = _
    rw [houts]
    simp [initState]
  constructor
  · intro hs
    rw [houts'] at hs
    obtain ⟨j', node', rec', h1, h2, h3, h4⟩ := (okOutputs_lookup nodes recs node.id).mp hs
    have hjj : j' = j := by
      apply nodup_getElem?_inj hids (x := node.id)
      · rw [List.getElem?_map, h1]
        simp [h4]
      · rw [List.getElem?_map, hj]
        rfl
    have := hstat j' rec' h2
    rw [hjj] at this
    show (runLoop corrFn httpRes edges (List.enumFrom 0 nodes)
      (initState nodes edges)).statuses[j]? = _
    rw [h3] at this
    simpa using this
  · intro hs
    have hjlt : j < nodes.length := (List.getElem?_eq_some.mp hj).1
    have hjr : j < recs.length := by omega
    have hrec : recs[j]? = some recs[j] := List.getElem?_eq_getElem hjr
    have hterm := hstat j recs[j] hrec
    have hok : recs[j].ok = true := by
      cases hco : recs[j].ok with
      | true => rfl
      | false =>
        rw [hco] at hterm
        simp only [Nat.zero_add, if_false] at hterm
        have : (executePipeline corrFn httpRes nodes edges).statuses[j]? =
            some Status.failed := hterm
        rw [hs] at this
        simp at this
    rw [houts']
    exact (okOutputs_lookup nodes recs node.id).mpr
      ⟨j, node, recs[j], hj, hrec, hok, rfl⟩

/-- C10 witness: in the two-node run (first succeeds, second fails), the
first node's id is in the store. -/
theorem C10_outputs_iff_completed_witness :
    (((executePipeline noCorr oneFailHttp twoNodes []).outputs.lookup
      "a").isSome = true) ∧
    ¬ (((executePipeline noCorr oneFailHttp twoNodes []).outputs.lookup
      "b").isSome = true) := by
  have h0 := C10_outputs_iff_completed noCorr oneFailHttp twoNodes []
    (by decide) 0 { id := "a", ntype := .http } rfl
  have h1 := C10_outputs_iff_completed noCorr oneFailHttp twoNodes []
    (by decide) 1 { id := "b", ntype := .http } rfl
  constructor
  · exact h0.mpr (by rfl)
  · intro hb
    have := h1.mp hb
    revert this
    decide

/-! ## C1 / C6 — the Pearson correlation transform -/

lemma corrN_comm (xs ys : List (Option ℝ)) : corrN xs ys = corrN ys xs :=
  min_comm _ _

lemma corrNum_comm (xs ys : List (Option ℝ)) : corrNum xs ys = corrNum ys xs := by
  simp only [corrNum]
  rw [corrN_comm]
  exact Finset.sum_congr rfl fun i _ => mul_comm _ _

lemma corrDx_swap (xs ys : List (Option ℝ)) : corrDx xs ys = corrDy ys xs := by
  simp only [corrDx, corrDy]
  rw [corrN_comm]

lemma corrDy_swap (xs ys : List (Option ℝ)) : corrDy xs ys = corrDx ys xs := by
  simp only [corrDx, corrDy]
  rw [corrN_comm]

lemma corrDen_comm (xs ys : List (Option ℝ)) : corrDen xs ys = corrDen ys xs := by
  simp only [corrDen]
  rw [corrDx_swap xs ys, corrDy_swap xs ys,
    mul_comm (corrDy ys xs) (corrDx ys xs)]

/-- Discrete Cauchy–Schwarz for the correlation accumulators. -/
lemma corrNum_sq_le (xs ys : List (Option ℝ)) :
    corrNum xs ys ^ 2 ≤ corrDx xs ys * corrDy xs ys := by
  simp only [corrNum, corrDx, corrDy]
  exact Finset.sum_mul_sq_le_sq_mul_sq _ _ _

lemma abs_corrNum_le (xs ys : List (Option ℝ)) :
    |corrNum xs ys| ≤ corrDen xs ys := by
  rw [← Real.sqrt_sq_eq_abs, corrDen]
  exact Real.sqrt_le_sqrt (corrNum_sq_le xs ys)

/-- C6: `t_correlation` is symmetric, bounded in `[-1, 1]`, exactly 0 when
fewer than two usable pairs remain, when either variance accumulator
vanishes, or when the denominator is within the `1e-6` epsilon, and equals
exactly 1 on the perfectly correlated series `[1,2,3]`, `[2,4,6]`. -/
theorem C6_correlation_props :
    (∀ xs ys : List (Option ℝ), t_correlation xs ys = t_correlation ys xs) ∧
    (∀ xs ys : List (Option ℝ),
      -1 ≤ t_correlation xs ys ∧ t_correlation xs ys ≤ 1) ∧
    (∀ xs ys : List (Option ℝ), corrN xs ys < 2 → t_correlation xs ys = 0) ∧
    (∀ xs ys : List (Option ℝ), corrDx xs ys = 0 ∨ corrDy xs ys = 0 →
      t_correlation xs ys = 0) ∧
    (∀ xs ys : List (Option ℝ), corrDen xs ys ≤ 1 / 1000000 →
      t_correlation xs ys = 0) ∧
    t_correlation [some 1, some 2, some 3] [some 2, some 4, some 6] = 1 := by
  have heps : ∀ xs ys : List (Option ℝ), corrDen xs ys ≤ 1 / 1000000 →
      t_correlation xs ys = 0 := by
    intro xs ys h
    simp only [t_correlation]
    by_cases h1 : corrN xs ys < 2
    · rw [if_pos h1]
    · rw [if_neg h1, if_neg (not_lt.mpr h)]
  refine ⟨?_, ?_, ?_, ?_, heps, ?_⟩
  · intro xs ys
    simp only [t_correlation]
    rw [corrN_comm, corrDen_comm, corrNum_comm]
  · intro xs ys
    simp only [t_correlation]
    by_cases h1 : corrN xs ys < 2
    · rw [if_pos h1]
      norm_num
    · rw [if_neg h1]
      by_cases h2 : corrDen xs ys > 1 / 1000000
      · rw [if_pos h2]
        have hden0 : 0 < corrDen xs ys := lt_trans (by norm_num) h2
        have habs : |corrNum xs ys / corrDen xs ys| ≤ 1 := by
          rw [abs_div, abs_of_pos hden0]
          exact (div_le_one hden0).mpr (abs_corrNum_le xs ys)
        exact abs_le.mp habs
      · rw [if_neg h2]
        norm_num
  · intro xs ys h1
    simp only [t_correlation]
    rw [if_pos h1]
  · intro xs ys h
    apply heps
    rcases h with h | h <;> simp [corrDen, h]
  · have hx : usableR [some (1 : ℝ), some 2, some 3] = [1, 2, 3] := rfl
    have hy : usableR [some (2 : ℝ), some 4, some 6] = [2, 4, 6] := rfl
    have hn : corrN [some (1 : ℝ), some 2, some 3] [some 2, some 4, some 6] = 3 := by
      simp [corrN, hx, hy]
    have hmx : meanSlice [(1 : ℝ), 2, 3] 3 = 2 := by
      simp [meanSlice]
      norm_num
    have hmy : meanSlice [(2 : ℝ), 4, 6] 3 = 4 := by
      simp [meanSlice]
      norm_num
    have hnum : corrNum [some (1 : ℝ), some 2, some 3] [some 2, some 4, some 6] = 4 := by
      simp only [corrNum, hn, hx, hy, hmx, hmy]
      rw [Finset.sum_range_succ, Finset.sum_range_succ, Finset.sum_range_succ,
        Finset.sum_range_zero]
      norm_num [List.getD_cons_zero, List.getD_cons_succ]
    have hdx : corrDx [some (1 : ℝ), some 2, some 3] [some 2, some 4, some 6] = 2 := by
      simp only [corrDx, hn, hx, hmx]
      rw [Finset.sum_range_succ, Finset.sum_range_succ, Finset.sum_range_succ,
        Finset.sum_range_zero]
      norm_num [List.getD_cons_zero, List.getD_cons_succ]
    have hdy : corrDy [some (1 : ℝ), some 2, some 3] [some 2, some 4, some 6] = 8 := by
      simp only [corrDy, hn, hy, hmy]
      rw [Finset.sum_range_succ, Finset.sum_range_succ, Finset.sum_range_succ,
        Finset.sum_range_zero]
      norm_num [List.getD_cons_zero, List.getD_cons_succ]
    have hden : corrDen [some (1 : ℝ), some 2, some 3] [some 2, some 4, some 6] = 4 := by
      simp only [corrDen, hdx, hdy]
      rw [show (2 : ℝ) * 8 = 4 ^ 2 by norm_num,
        Real.sqrt_sq (by norm_num : (0 : ℝ) ≤ 4)]
    simp only [t_correlation, hn, hnum, hden]
    norm_num

/-- C6 witness: the `< 2` guard applied at a concrete input. -/
theorem C6_correlation_props_witness :
    t_correlation [some (1 : ℝ)] [] = 0 :=
  C6_correlation_props.2.2.1 [some (1 : ℝ)] [] (by simp [corrN, usableR])

/-- The C1 failing input: non-numeric entries at different indices. -/
def xs1 : List (Option ℝ) := [some 1, none, some 3]

/-- The C1 failing input's second series. -/
def ys1 : List (Option ℝ) := [none, some 2, some 6]

/-- C1: the code filters each series independently before pairing, which
desynchronizes the x/y pairing when the non-numeric entries sit at
different indices: on `xs=[1,"a",3]`, `ys=["b",2,6]` the code pairs
`(1,2),(3,6)` and returns 1, while the index-aligned contract of the spec
(`correlationSpec`) keeps only the single aligned pair `(3,6)` and returns
0. -/
theorem C1_pairing_desync :
    t_correlation xs1 ys1 = 1 ∧ correlationSpec xs1 ys1 = 0 := by
  constructor
  · have hx : usableR xs1 = [1, 3] := rfl
    have hy : usableR ys1 = [2, 6] := rfl
    have hn : corrN xs1 ys1 = 2 := by simp [corrN, hx, hy]
    have hmx : meanSlice [(1 : ℝ), 3] 2 = 2 := by
      simp [meanSlice]
      norm_num
    have hmy : meanSlice [(2 : ℝ), 6] 2 = 4 := by
      simp [meanSlice]
      norm_num
    have hnum : corrNum xs1 ys1 = 4 := by
      simp only [corrNum, hn, hx, hy, hmx, hmy]
      rw [Finset.sum_range_succ, Finset.sum_range_succ, Finset.sum_range_zero]
      norm_num [List.getD_cons_zero, List.getD_cons_succ]
    have hdx : corrDx xs1 ys1 = 2 := by
      simp only [corrDx, hn, hx, hmx]
      rw [Finset.sum_range_succ, Finset.sum_range_succ, Finset.sum_range_zero]
      norm_num [List.getD_cons_zero, List.getD_cons_succ]
    have hdy : corrDy xs1 ys1 = 8 := by
      simp only [corrDy, hn, hy, hmy]
      rw [Finset.sum_range_succ, Finset.sum_range_succ, Finset.sum_range_zero]
      norm_num [List.getD_cons_zero, List.getD_cons_succ]
    have hden : corrDen xs1 ys1 = 4 := by
      simp only [corrDen, hdx, hdy]
      rw [show (2 : ℝ) * 8 = 4 ^ 2 by norm_num,
        Real.sqrt_sq (by norm_num : (0 : ℝ) ≤ 4)]
    simp only [t_correlation, hn, hnum, hden]
    norm_num
  · have hpairs : ((xs1.zip ys1).filterMap fun ab =>
        match ab with
        | (some a, some b) => some (a, b)
        | _ => none) = [((3 : ℝ), (6 : ℝ))] := rfl
    simp only [correlationSpec, hpairs]
    simp [t_correlation, corrN, usableR]

end Exec
